import Mathlib

/-!
Shallow embedding of the analytics core of the SPY market-structure
dashboard (React/JS source), together with proofs settling the frozen
claims about it.

Conventions of the embedding:
* JavaScript numbers are modelled as exact rationals (`ℚ`); statements
  that the spec qualifies "within floating tolerance" become exact
  equalities over `ℚ`.
* JS `null`/absent results are modelled with `Option`.
* The JS idiom `a || b` on numbers (falsy `0` replaced by a default) is
  modelled by `jsOr`.
* `Math.random()` is modelled as an explicit stream `rand : ℕ → ℚ`
  threaded through the functions that call it, and `new Date()` as an
  explicit `now : String` argument; purity/determinism claims are then
  statements about (in)dependence of results from these oracles.
-/

namespace SpyDash

/-- Model of the JS idiom `a || b` for numbers: `0` is falsy. -/
def jsOr (a b : ℚ) : ℚ := if a = 0 then b else a

/-- Model of JS `Math.round` (round half toward positive infinity). -/
def jsRound (q : ℚ) : ℚ := (⌊q + 1 / 2⌋ : ℤ)

/-- Minimum of a list of rationals, as JS `Math.min(...xs)`; `0` on an
empty list (the sources only apply it to non-empty lists). -/
def listMin : List ℚ → ℚ
  | [] => 0
  | h :: t => t.foldl min h

/-- Maximum of a list of rationals, as JS `Math.max(...xs)`; `0` on an
empty list (the sources only apply it to non-empty lists). -/
def listMax : List ℚ → ℚ
  | [] => 0
  | h :: t => t.foldl max h

/-!
## Indicator engine: RSI

Embedding of `calculateRSI(data, period = 14)` from the market-structure
module: with fewer than `period + 1` closes it returns the neutral 50;
otherwise it sums gains and losses over exactly the last `period`
deltas, returns 100 when the average loss is 0, and
`100 - 100/(1 + avgGain/avgLoss)` otherwise.
-/

/-- Last `period + 1` data points, the window the RSI loop reads
(`data[i]` for `i` from `data.length - period - 1` to `data.length - 1`). -/
def rsiWindow (data : List ℚ) (period : ℕ) : List ℚ :=
  data.drop (data.length - (period + 1))

/-- The consecutive deltas `data[i] - data[i-1]` over the RSI window. -/
def rsiDeltas (data : List ℚ) (period : ℕ) : List ℚ :=
  List.zipWith (fun a b => a - b) ((rsiWindow data period).drop 1) (rsiWindow data period)

/-- Summed gains over the last `period` deltas (`gains` in the source). -/
def rsiGains (data : List ℚ) (period : ℕ) : ℚ :=
  ((rsiDeltas data period).map (fun c => if 0 < c then c else 0)).sum

/-- Summed losses over the last `period` deltas (`losses` in the source;
a non-positive delta `c` contributes `-c`). -/
def rsiLosses (data : List ℚ) (period : ℕ) : ℚ :=
  ((rsiDeltas data period).map (fun c => if 0 < c then 0 else -c)).sum

/-- Embedding of `calculateRSI`. -/
def calculateRSI (data : List ℚ) (period : ℕ) : ℚ :=
  if data.length < period + 1 then 50
  else
    let avgGain := rsiGains data period / period
    let avgLoss := rsiLosses data period / period
    if avgLoss = 0 then 100
    else 100 - 100 / (1 + avgGain / avgLoss)

theorem rsiGains_nonneg (data : List ℚ) (period : ℕ) : 0 ≤ rsiGains data period := by
  refine List.sum_nonneg ?_
  intro x hx
  rcases List.mem_map.1 hx with ⟨c, _, rfl⟩
  by_cases h : 0 < c
  · simpa [h] using le_of_lt h
  · simp [h]

theorem rsiLosses_nonneg (data : List ℚ) (period : ℕ) : 0 ≤ rsiLosses data period := by
  refine List.sum_nonneg ?_
  intro x hx
  rcases List.mem_map.1 hx with ⟨c, _, rfl⟩
  by_cases h : 0 < c
  · simp [h]
  · simp only [h, if_false]
    push_neg at h
    linarith

/-- C2: amended RSI claim. For every price series, RSI(14) lies in
`[0, 100]`; series shorter than `period + 1 = 15` points give exactly the
neutral 50 (though longer series may give 50 as well when gains equal
losses); for series of at least 15 points, RSI equals exactly 100 iff the
summed losses over the last 14 deltas are 0. -/
theorem calculateRSI_cases (data : List ℚ) :
    (0 ≤ calculateRSI data 14 ∧ calculateRSI data 14 ≤ 100) ∧
    (data.length < 15 → calculateRSI data 14 = 50) ∧
    (15 ≤ data.length → (calculateRSI data 14 = 100 ↔ rsiLosses data 14 = 0)) := by
  unfold calculateRSI
  by_cases hlen : data.length < 14 + 1
  · rw [if_pos hlen]
    exact ⟨⟨by norm_num, by norm_num⟩, fun _ => rfl, fun h => absurd hlen (by omega)⟩
  · rw [if_neg hlen]
    have hl0 : 0 ≤ rsiLosses data 14 := rsiLosses_nonneg data 14
    have hg0 : 0 ≤ rsiGains data 14 := rsiGains_nonneg data 14
    by_cases hz : rsiLosses data 14 / (14 : ℕ) = 0
    · have hzero : rsiLosses data 14 = 0 := by
        rcases div_eq_zero_iff.1 hz with h | h
        · exact h
        · norm_num at h
      rw [if_pos hz]
      exact ⟨⟨by norm_num, by norm_num⟩, fun h => absurd h hlen,
        fun _ => ⟨fun _ => hzero, fun _ => rfl⟩⟩
    · have hlpos : 0 < rsiLosses data 14 / (14 : ℕ) := by
        rcases lt_or_eq_of_le (by positivity : (0:ℚ) ≤ rsiLosses data 14 / (14 : ℕ)) with h | h
        · exact h
        · exact absurd h.symm hz
      have hlne : rsiLosses data 14 ≠ 0 := by
        intro h
        exact hz (by simp [h])
      have hrs : 0 ≤ rsiGains data 14 / (14 : ℕ) / (rsiLosses data 14 / (14 : ℕ)) := by
        positivity
      have hden : (1 : ℚ) ≤ 1 + rsiGains data 14 / (14 : ℕ) / (rsiLosses data 14 / (14 : ℕ)) := by
        linarith
      have hfracpos : 0 < 100 / (1 + rsiGains data 14 / (14 : ℕ) / (rsiLosses data 14 / (14 : ℕ))) := by
        apply div_pos (by norm_num)
        linarith
      have hfracle : 100 / (1 + rsiGains data 14 / (14 : ℕ) / (rsiLosses data 14 / (14 : ℕ))) ≤ 100 :=
        div_le_self (by norm_num) hden
      rw [if_neg hz]
      refine ⟨⟨by linarith, by linarith⟩, fun h => absurd h hlen, fun _ => ?_⟩
      constructor
      · intro h
        exfalso
        linarith
      · intro h
        exact absurd h hlne

/-- C2: the claim as stated is false on the code: the alternating series
`0,1,0,…,0` of length 15 yields RSI exactly 50 although its length is not
below `period + 1 = 15` (refuting "RSI = 50 only if fewer than period+1
points"), and the 2-point series `1,2` has zero summed losses yet yields
RSI 50, not 100 (refuting "RSI = 100 whenever summed losses are 0"). -/
theorem calculateRSI_claim_counterexample :
    ¬ (calculateRSI [0, 1, 0, 1, 0, 1, 0, 1, 0, 1, 0, 1, 0, 1, 0] 14 = 50 ↔
        List.length [(0:ℚ), 1, 0, 1, 0, 1, 0, 1, 0, 1, 0, 1, 0, 1, 0] < 15) ∧
    ¬ (calculateRSI [1, 2] 14 = 100 ↔ rsiLosses [1, 2] 14 = 0) := by
  have h1 : calculateRSI [0, 1, 0, 1, 0, 1, 0, 1, 0, 1, 0, 1, 0, 1, 0] 14 = 50 := by
    norm_num [calculateRSI, rsiGains, rsiLosses, rsiDeltas, rsiWindow]
  have h2 : ¬ (List.length [(0:ℚ), 1, 0, 1, 0, 1, 0, 1, 0, 1, 0, 1, 0, 1, 0] < 15) := by
    decide
  have h3 : calculateRSI [1, 2] 14 ≠ 100 := by
    norm_num [calculateRSI, rsiGains, rsiLosses, rsiDeltas, rsiWindow]
  have h4 : rsiLosses [1, 2] 14 = 0 := by
    norm_num [rsiLosses, rsiDeltas, rsiWindow]
  exact ⟨fun h => h2 (h.1 h1), fun h => h3 (h.2 h4)⟩

/-- C2 witness: the amended RSI theorem applied at the concrete 3-point
series, whose length is below 15, giving the neutral value 50. -/
theorem calculateRSI_cases_witness :
    calculateRSI [1, 2, 3] 14 = 50 :=
  (calculateRSI_cases [1, 2, 3]).2.1 (by decide)

/-!
## Correlation analysis

Embedding of `calculateCorrelation(arr1, arr2)` and
`calculateRollingCorrelation(data, window = 14)`.
-/

/-- Result of `calculateCorrelation`: the source either returns the
literal number 0 (mismatched lengths, empty inputs, or a zero
denominator), or the quotient `numerator / Math.sqrt(denom1 * denom2)`.
Since the square root of a rational is irrational in general, the
quotient is kept symbolically as its three components and interpreted by
`CorrOut.valEq`. -/
inductive CorrOut where
  | zero : CorrOut
  | ratio (num den1 den2 : ℚ) : CorrOut
  deriving DecidableEq, Repr

/-- Mean of a series (`arr.reduce((a, b) => a + b) / n`). -/
def seriesMean (l : List ℚ) : ℚ := l.sum / l.length

/-- The accumulation loop of `calculateCorrelation`: with `m1`, `m2` the
two means, this is `Σ (a_i - m1) * (b_i - m2)`; it gives the numerator on
`(a, b)` and the two denominators on `(a, a)` and `(b, b)`. -/
def corrSum (a b : List ℚ) (m1 m2 : ℚ) : ℚ :=
  (List.zipWith (fun x y => (x - m1) * (y - m2)) a b).sum

/-- Embedding of `calculateCorrelation`. -/
def calculateCorrelation (arr1 arr2 : List ℚ) : CorrOut :=
  if arr1.length ≠ arr2.length ∨ arr1.length = 0 then .zero
  else
    let mean1 := seriesMean arr1
    let mean2 := seriesMean arr2
    let numerator := corrSum arr1 arr2 mean1 mean2
    let denom1 := corrSum arr1 arr1 mean1 mean1
    let denom2 := corrSum arr2 arr2 mean2 mean2
    if denom1 = 0 ∨ denom2 = 0 then .zero
    else .ratio numerator denom1 denom2

/-- Interpretation of a `CorrOut`: `c.valEq q` states that the real
number the source computes equals `q`.  In the `ratio` branch `den1` and
`den2` are sums of squares and nonzero (the source returned 0 otherwise),
so `den1 * den2 > 0` and `num / √(den1 * den2) = q` holds exactly when
`q² * (den1 * den2) = num²` and `q` has the sign of `num`. -/
def CorrOut.valEq : CorrOut → ℚ → Prop
  | .zero, q => q = 0
  | .ratio num den1 den2, q => q ^ 2 * (den1 * den2) = num ^ 2 ∧ (0 ≤ num ↔ 0 ≤ q)

/-- Deviation-squared sum of a series about its own mean — the quantity
the source tests against 0 before dividing (zero variance). -/
def devSqSum (l : List ℚ) : ℚ := corrSum l l (seriesMean l) (seriesMean l)

theorem corrSum_self (a : List ℚ) (m : ℚ) :
    corrSum a a m m = (a.map (fun x => (x - m) * (x - m))).sum := by
  unfold corrSum
  rw [List.zipWith_same]

theorem corrSum_self_nonneg (a : List ℚ) (m : ℚ) : 0 ≤ corrSum a a m m := by
  rw [corrSum_self]
  refine List.sum_nonneg ?_
  intro x hx
  rcases List.mem_map.1 hx with ⟨c, _, rfl⟩
  exact mul_self_nonneg _

theorem sum_map_neg (l : List ℚ) : (l.map (fun x => -x)).sum = -l.sum := by
  induction l with
  | nil => simp
  | cons h t ih => simp [ih]; ring

theorem seriesMean_map_neg (l : List ℚ) :
    seriesMean (l.map (fun x => -x)) = -seriesMean l := by
  unfold seriesMean
  rw [sum_map_neg, List.length_map, neg_div]

theorem corrSum_map_neg_right (a : List ℚ) (m : ℚ) :
    corrSum a (a.map (fun x => -x)) m (-m) = -(corrSum a a m m) := by
  unfold corrSum
  rw [List.zipWith_map_right, List.zipWith_same, List.zipWith_same, ← sum_map_neg,
    List.map_map]
  apply congrArg
  apply List.map_congr_left
  intro x hx
  simp only [Function.comp_apply]
  ring

theorem corrSum_map_neg_both (a : List ℚ) (m : ℚ) :
    corrSum (a.map (fun x => -x)) (a.map (fun x => -x)) (-m) (-m) = corrSum a a m m := by
  rw [corrSum_self, corrSum_self, List.map_map]
  apply congrArg
  apply List.map_congr_left
  intro x hx
  simp only [Function.comp_apply]
  ring

/-- C6: amended correlation claim. For every series `A` with nonzero
deviation-squared sum (nonzero variance), `correlation(A, A)` has value 1
and `correlation(A, -A)` has value -1 exactly; and for all `A`, `B`, the
function returns the literal 0 whenever the lengths mismatch, the series
are empty, or either series has zero variance.  (The original claim's
"for every non-empty `A`" fails: a constant series has zero variance and
hits the 0 branch, not 1.) -/
theorem calculateCorrelation_spec (A : List ℚ) :
    (devSqSum A ≠ 0 →
      (calculateCorrelation A A).valEq 1 ∧
      (calculateCorrelation A (A.map (fun x => -x))).valEq (-1)) ∧
    (∀ B : List ℚ,
      A.length ≠ B.length ∨ A.length = 0 ∨ devSqSum A = 0 ∨ devSqSum B = 0 →
      calculateCorrelation A B = .zero) := by
  have hdev : devSqSum A = corrSum A A (seriesMean A) (seriesMean A) := rfl
  constructor
  · intro hA
    have hApos : 0 < devSqSum A :=
      lt_of_le_of_ne (hdev ▸ corrSum_self_nonneg A (seriesMean A)) (Ne.symm hA)
    have hAne : A.length ≠ 0 := by
      intro h
      rw [List.length_eq_zero] at h
      subst h
      exact hA rfl
    constructor
    · simp only [calculateCorrelation]
      rw [if_neg (by simp [hAne])]
      rw [if_neg (by rw [← hdev]; intro h; rcases h with h | h <;> exact hA h)]
      refine ⟨by ring, ?_⟩
      rw [← hdev]
      constructor
      · intro
        norm_num
      · intro
        exact le_of_lt hApos
    · simp only [calculateCorrelation]
      rw [if_neg (by simp [hAne])]
      rw [seriesMean_map_neg, corrSum_map_neg_both, corrSum_map_neg_right, ← hdev]
      rw [if_neg (by intro h; rcases h with h | h <;> exact hA h)]
      refine ⟨by ring, ?_⟩
      constructor
      · intro h
        exfalso
        have := neg_nonneg.1 h
        linarith
      · intro h
        exfalso
        norm_num at h
  · intro B hB
    simp only [calculateCorrelation]
    by_cases hguard : A.length ≠ B.length ∨ A.length = 0
    · rw [if_pos hguard]
    · rw [if_neg hguard]
      push_neg at hguard
      rw [hdev] at hB
      rcases hB with h | h | h | h
      · exact absurd hguard.1 h
      · exact absurd h hguard.2
      · rw [if_pos (Or.inl h)]
      · exact if_pos (Or.inr h)

/-- C6: the claim as stated is false on the code: the constant one-point
series `[5]` is non-empty, yet `correlation([5], [5])` is the literal 0
(zero variance branch), not 1. -/
theorem calculateCorrelation_claim_counterexample :
    List.length [(5:ℚ)] ≠ 0 ∧ ¬ (calculateCorrelation [(5:ℚ)] [(5:ℚ)]).valEq 1 := by
  constructor
  · decide
  · have hz : calculateCorrelation [(5:ℚ)] [(5:ℚ)] = .zero := by
      unfold calculateCorrelation
      rw [if_neg (by simp)]
      rw [if_pos]
      left
      norm_num [corrSum, seriesMean]
    rw [hz]
    intro h
    exact one_ne_zero h

/-- C6 witness: the amended theorem applied to `A = [0, 2]`, whose
deviation-squared sum is 2 ≠ 0, giving correlations 1 and -1, and to the
zero-variance pair `([5], [5])`, giving the literal 0. -/
theorem calculateCorrelation_spec_witness :
    ((calculateCorrelation [(0:ℚ), 2] [(0:ℚ), 2]).valEq 1 ∧
      (calculateCorrelation [(0:ℚ), 2] [(0:ℚ), -2]).valEq (-1)) ∧
    calculateCorrelation [(5:ℚ)] [(5:ℚ)] = .zero := by
  constructor
  · have h := (calculateCorrelation_spec [(0:ℚ), 2]).1
      (by norm_num [devSqSum, corrSum, seriesMean])
    have hmap : ([(0:ℚ), 2].map (fun x => -x)) = [(0:ℚ), -2] := by norm_num
    rw [hmap] at h
    exact h
  · exact (calculateCorrelation_spec [(5:ℚ)]).2 [(5:ℚ)]
      (Or.inr (Or.inr (Or.inl (by norm_num [devSqSum, corrSum, seriesMean]))))

/-- Input record of `calculateRollingCorrelation`: one bar with a `spy`
and a `vix` value. -/
structure SVPoint where
  timestamp : ℤ
  spy : ℚ
  vix : ℚ
  deriving DecidableEq, Inhabited, Repr

/-- Output record of `calculateRollingCorrelation`. -/
structure RollCorrPoint where
  timestamp : ℤ
  spyVixCorr : CorrOut
  spy : ℚ
  vix : ℚ
  deriving DecidableEq, Repr

/-- Embedding of `calculateRollingCorrelation(data, window = 14)`: the
source loops `i` from `window` to `data.length - 1` and, for each `i`,
correlates the slice `data.slice(i - window, i)` (the `window` entries at
indices `i - window … i - 1`). -/
def calculateRollingCorrelation (data : List SVPoint) (window : ℕ) : List RollCorrPoint :=
  (List.range' window (data.length - window)).map (fun i =>
    let slice := (data.drop (i - window)).take window
    { timestamp := (data.getD i default).timestamp
      spyVixCorr := calculateCorrelation (slice.map (·.spy)) (slice.map (·.vix))
      spy := (data.getD i default).spy
      vix := (data.getD i default).vix })

/-- C7: amended rolling-correlation claim. For every input series of
length `n` and window `W`, the result has exactly one entry per index `i`
with `W ≤ i < n` (so `n - W` entries), and the entry for index `i`
correlates the `W`-length sub-series at indices `i - W … i - 1`, i.e. the
window ending immediately *before* index `i` (not the window ending `at`
index `i`, as the original claim states). -/
theorem calculateRollingCorrelation_spec (data : List SVPoint) (window : ℕ) :
    (calculateRollingCorrelation data window).length = data.length - window ∧
    ∀ i : ℕ, window ≤ i → i < data.length →
      (calculateRollingCorrelation data window)[i - window]? =
        some { timestamp := (data.getD i default).timestamp
               spyVixCorr := calculateCorrelation
                 (((data.drop (i - window)).take window).map (·.spy))
                 (((data.drop (i - window)).take window).map (·.vix))
               spy := (data.getD i default).spy
               vix := (data.getD i default).vix } := by
  constructor
  · simp [calculateRollingCorrelation]
  · intro i hw hn
    unfold calculateRollingCorrelation
    rw [List.getElem?_map]
    rw [List.getElem?_range' _ _ (by omega)]
    rw [show window + 1 * (i - window) = i by omega]
    simp

/-- C7: the claim as stated is false on the code: with window 2 and the
3-point series below, the single emitted value (for index `i = 2`)
correlates indices 0–1, which gives value 1, whereas the Pearson
correlation of the trailing 2-point sub-series *ending at* index 2 is the
literal 0 (its `spy` slice `[1, 1]` has zero variance). -/
theorem calculateRollingCorrelation_claim_counterexample :
    ¬ (((calculateRollingCorrelation
          [⟨0, 0, 0⟩, ⟨1, 1, 1⟩, ⟨2, 1, 0⟩] 2)[0]?).map (·.spyVixCorr) =
        some (calculateCorrelation
          ((([(⟨0, 0, 0⟩ : SVPoint), ⟨1, 1, 1⟩, ⟨2, 1, 0⟩].drop 1).take 2).map (·.spy))
          ((([(⟨0, 0, 0⟩ : SVPoint), ⟨1, 1, 1⟩, ⟨2, 1, 0⟩].drop 1).take 2).map (·.vix)))) := by
  have hcode : ((calculateRollingCorrelation
      [⟨0, 0, 0⟩, ⟨1, 1, 1⟩, ⟨2, 1, 0⟩] 2)[0]?).map (·.spyVixCorr) =
      some (CorrOut.ratio (1/2) (1/2) (1/2)) := by
    norm_num [calculateRollingCorrelation, List.range', calculateCorrelation,
      corrSum, seriesMean]
  have hspec : calculateCorrelation
      ((([(⟨0, 0, 0⟩ : SVPoint), ⟨1, 1, 1⟩, ⟨2, 1, 0⟩].drop 1).take 2).map (·.spy))
      ((([(⟨0, 0, 0⟩ : SVPoint), ⟨1, 1, 1⟩, ⟨2, 1, 0⟩].drop 1).take 2).map (·.vix)) =
      CorrOut.zero := by
    norm_num [calculateCorrelation, corrSum, seriesMean]
  rw [hcode, hspec]
  simp

/-- C7 witness: the amended theorem applied at the 3-point series with
window 2 and index `i = 2`. -/
theorem calculateRollingCorrelation_spec_witness :
    (calculateRollingCorrelation [⟨0, 0, 0⟩, ⟨1, 1, 1⟩, ⟨2, 1, 0⟩] 2).length = 1 ∧
    (calculateRollingCorrelation [⟨0, 0, 0⟩, ⟨1, 1, 1⟩, ⟨2, 1, 0⟩] 2)[0]? =
      some { timestamp := 2
             spyVixCorr := calculateCorrelation [0, 1] [0, 1]
             spy := 1
             vix := 0 } := by
  have h := calculateRollingCorrelation_spec [⟨0, 0, 0⟩, ⟨1, 1, 1⟩, ⟨2, 1, 0⟩] 2
  refine ⟨h.1, ?_⟩
  have h2 := h.2 2 (by decide) (by decide)
  simpa using h2

/-!
## Volume profile

Embedding of `calculateVolumeProfile(data)`: 50 equal-width bins over
`[min(close), max(close)]`, each summing the volume of the bars whose
close lies in `[binLow, binHigh)`; the POC is the highest-volume bin and
the value area greedily accumulates top-volume bins up to 70%.
-/

/-- Input price bar; the source reads `close` and `volume`. -/
structure PriceBar where
  timestamp : ℤ
  close : ℚ
  volume : ℚ
  deriving DecidableEq, Inhabited, Repr

/-- Per-bar volume as used by the source: `d.volume || 1000000`. -/
def barVolume (b : PriceBar) : ℚ := jsOr b.volume 1000000

/-- One bin of the volume profile. -/
structure VPBin where
  priceLevel : ℚ
  volume : ℚ
  priceLow : ℚ
  priceHigh : ℚ
  deriving DecidableEq, Inhabited, Repr

/-- Result of `calculateVolumeProfile`.  `poc` is `none` only for empty
input (JS `null`); `vah`/`val` are `none` when the greedy value-area
accumulation is empty (where JS `Math.max()`/`Math.min()` of no
arguments would give `-Infinity`/`Infinity`). -/
structure VPResult where
  profile : List VPBin
  poc : Option VPBin
  vah : Option ℚ
  val : Option ℚ
  deriving DecidableEq, Repr

/-- Volume of one bin: the sum over bars whose close lies in
`[binLow, binHigh)` of their volume (the source's `data.reduce`). -/
def binVolume (data : List PriceBar) (binLow binHigh : ℚ) : ℚ :=
  (data.map (fun d => if binLow ≤ d.close ∧ d.close < binHigh then barVolume d else 0)).sum

/-- The greedy value-area accumulation loop of the source: keep taking
nodes (already sorted by descending volume) while the accumulated volume
is below the target. -/
def accumValueArea : List VPBin → ℚ → ℚ → List VPBin
  | [], _, _ => []
  | node :: rest, target, acc =>
    if acc < target then node :: accumValueArea rest target (acc + node.volume)
    else []

/-- Embedding of `calculateVolumeProfile`. -/
def calculateVolumeProfile (data : List PriceBar) : VPResult :=
  if data = [] then { profile := [], poc := none, vah := none, val := none }
  else
    let prices := data.map (·.close)
    let minPrice := listMin prices
    let maxPrice := listMax prices
    let numBins : ℕ := 50
    let binSize := (maxPrice - minPrice) / numBins
    let profile := (List.range numBins).map (fun (i : ℕ) =>
      let binLow := minPrice + (i : ℚ) * binSize
      let binHigh := binLow + binSize
      { priceLevel := (binLow + binHigh) / 2
        volume := binVolume data binLow binHigh
        priceLow := binLow
        priceHigh := binHigh : VPBin })
    let poc := profile.foldl
      (fun mx curr => if mx.volume < curr.volume then curr else mx) (profile.headD default)
    let totalVolume := (profile.map (·.volume)).sum
    let valueVolume := totalVolume * (7 / 10)
    let sortedByVolume := profile.mergeSort (fun a b => b.volume ≤ a.volume)
    let valueArea := accumValueArea sortedByVolume valueVolume 0
    { profile := profile
      poc := some poc
      vah := if valueArea = [] then none else some (listMax (valueArea.map (·.priceLevel)))
      val := if valueArea = [] then none else some (listMin (valueArea.map (·.priceLevel))) }

theorem foldl_min_le (t : List ℚ) (a : ℚ) :
    t.foldl min a ≤ a ∧ ∀ x ∈ t, t.foldl min a ≤ x := by
  induction t generalizing a with
  | nil => simp
  | cons h rest ih =>
    have h1 := ih (min a h)
    refine ⟨le_trans h1.1 (min_le_left a h), ?_⟩
    intro x hx
    rcases List.mem_cons.1 hx with rfl | hx
    · exact le_trans h1.1 (min_le_right a x)
    · exact h1.2 x hx

theorem le_foldl_max (t : List ℚ) (a : ℚ) :
    a ≤ t.foldl max a ∧ ∀ x ∈ t, x ≤ t.foldl max a := by
  induction t generalizing a with
  | nil => simp
  | cons h rest ih =>
    have h1 := ih (max a h)
    refine ⟨le_trans (le_max_left a h) h1.1, ?_⟩
    intro x hx
    rcases List.mem_cons.1 hx with rfl | hx
    · exact le_trans (le_max_right a x) h1.1
    · exact h1.2 x hx

theorem listMin_le {l : List ℚ} {x : ℚ} (h : x ∈ l) : listMin l ≤ x := by
  cases l with
  | nil => cases h
  | cons a t =>
    rcases List.mem_cons.1 h with rfl | hx
    · exact (foldl_min_le t x).1
    · exact (foldl_min_le t a).2 x hx

theorem le_listMax {l : List ℚ} {x : ℚ} (h : x ∈ l) : x ≤ listMax l := by
  cases l with
  | nil => cases h
  | cons a t =>
    rcases List.mem_cons.1 h with rfl | hx
    · exact (le_foldl_max t x).1
    · exact (le_foldl_max t a).2 x hx

theorem list_range_map_sum (n : ℕ) (f : ℕ → ℚ) :
    ((List.range n).map f).sum = ∑ i in Finset.range n, f i := by
  induction n with
  | zero => simp
  | succ m ih => rw [List.range_succ, Finset.sum_range_succ, List.map_append, List.sum_append, ih]; simp

theorem range_sum_swap (n : ℕ) (data : List PriceBar) (g : ℕ → PriceBar → ℚ) :
    ∑ i in Finset.range n, (data.map (g i)).sum
      = (data.map (fun d => ∑ i in Finset.range n, g i d)).sum := by
  induction data with
  | nil => simp
  | cons d t ih => simp [Finset.sum_add_distrib, ih]

theorem sum_map_ite_filter (data : List PriceBar) (p : PriceBar → Prop) [DecidablePred p]
    (f : PriceBar → ℚ) :
    (data.map (fun d => if p d then f d else 0)).sum
      = ((data.filter (fun d => p d)).map f).sum := by
  induction data with
  | nil => simp
  | cons d t ih =>
    by_cases h : p d <;> simp [h, ih]

theorem bin_indicator_sum (minP maxP c v : ℚ) (hmin : minP ≤ c) (_hmax : c ≤ maxP)
    (hlt : minP < maxP) :
    (∑ i in Finset.range 50,
      if minP + i * ((maxP - minP) / 50) ≤ c ∧
          c < minP + i * ((maxP - minP) / 50) + (maxP - minP) / 50 then v else 0)
      = if c < maxP then v else 0 := by
  set s : ℚ := (maxP - minP) / 50 with hs_def
  have hs : 0 < s := by
    rw [hs_def]
    apply div_pos (by linarith) (by norm_num)
  have h50s : minP + 50 * s = maxP := by
    rw [hs_def]
    field_simp
  by_cases hc : c < maxP
  · rw [if_pos hc]
    set x : ℚ := (c - minP) / s with hx_def
    have hx0 : 0 ≤ x := by
      rw [hx_def]
      apply div_nonneg (by linarith) (le_of_lt hs)
    have hxlt : x < 50 := by
      rw [hx_def, div_lt_iff₀ hs]
      linarith [h50s]
    have hfl0 : 0 ≤ ⌊x⌋ := Int.floor_nonneg.2 hx0
    set i₀ : ℕ := (⌊x⌋).toNat with hi₀_def
    have hi₀cast : ((i₀ : ℤ) : ℚ) = (⌊x⌋ : ℚ) := by
      rw [hi₀_def, Int.toNat_of_nonneg hfl0]
    have hi₀lt : i₀ < 50 := by
      have h1 : (⌊x⌋ : ℚ) ≤ x := Int.floor_le x
      have : (⌊x⌋ : ℚ) < 50 := lt_of_le_of_lt h1 hxlt
      have : ⌊x⌋ < 50 := by exact_mod_cast this
      omega
    have key : ∀ i ∈ Finset.range 50,
        ((minP + i * s ≤ c ∧ c < minP + i * s + s) ↔ i = i₀) := by
      intro i _
      constructor
      · rintro ⟨h1, h2⟩
        have hle : (i : ℚ) ≤ x := by
          rw [hx_def, le_div_iff₀ hs]
          linarith
        have hlt2 : x < i + 1 := by
          rw [hx_def, div_lt_iff₀ hs]
          ring_nf
          ring_nf at h2
          linarith
        have : ⌊x⌋ = (i : ℤ) := by
          rw [Int.floor_eq_iff]
          constructor
          · exact_mod_cast hle
          · exact_mod_cast hlt2
        omega
      · rintro rfl
        have h1 : ((i₀ : ℚ)) ≤ x := by
          have := Int.floor_le x
          rw [← hi₀cast] at this
          exact_mod_cast this
        have h2 : x < (i₀ : ℚ) + 1 := by
          have := Int.lt_floor_add_one x
          rw [← hi₀cast] at this
          exact_mod_cast this
        constructor
        · rw [hx_def, le_div_iff₀ hs] at h1
          linarith
        · rw [hx_def, div_lt_iff₀ hs] at h2
          ring_nf
          ring_nf at h2
          linarith
    calc (∑ i in Finset.range 50, if minP + i * s ≤ c ∧ c < minP + i * s + s then v else 0)
        = ∑ i in Finset.range 50, if i = i₀ then v else 0 := by
          refine Finset.sum_congr rfl ?_
          intro i hi
          exact if_congr (key i hi) rfl rfl
      _ = v := by
          rw [Finset.sum_ite_eq' (Finset.range 50) i₀ (fun _ => v)]
          rw [if_pos (Finset.mem_range.2 hi₀lt)]
  · rw [if_neg hc]
    refine Finset.sum_eq_zero ?_
    intro i hi
    rw [if_neg]
    rintro ⟨_, h2⟩
    have hle : (i : ℚ) + 1 ≤ 50 := by
      have := Finset.mem_range.1 hi
      exact_mod_cast this
    have : c < minP + 50 * s := by
      have hstep : minP + i * s + s ≤ minP + 50 * s := by
        have : ((i : ℚ) + 1) * s ≤ 50 * s := by
          apply mul_le_mul_of_nonneg_right hle (le_of_lt hs)
        ring_nf
        ring_nf at this
        linarith
      linarith
    rw [h50s] at this
    exact hc this

theorem volumeProfile_sum (data : List PriceBar) (h : data ≠ []) :
    ((calculateVolumeProfile data).profile.map (fun b => b.volume)).sum
      = ((data.filter (fun d => d.close < listMax (data.map (fun d => d.close)))).map
          barVolume).sum := by
  have hmem : ∀ d ∈ data,
      listMin (data.map (fun d => d.close)) ≤ d.close ∧
      d.close ≤ listMax (data.map (fun d => d.close)) := by
    intro d hd
    exact ⟨listMin_le (List.mem_map_of_mem _ hd), le_listMax (List.mem_map_of_mem _ hd)⟩
  have hminmax : listMin (data.map (fun d => d.close)) ≤ listMax (data.map (fun d => d.close)) := by
    cases data with
    | nil => exact absurd rfl h
    | cons d t =>
      have := hmem d (List.mem_cons_self d t)
      linarith [this.1, this.2]
  simp only [calculateVolumeProfile, if_neg h, List.map_map, Function.comp]
  rw [list_range_map_sum]
  simp only [binVolume, Function.comp_apply]
  push_cast
  rw [range_sum_swap]
  rcases lt_or_eq_of_le hminmax with hlt | heq
  · have hpoint : ∀ d ∈ data,
        (∑ i in Finset.range 50,
          if listMin (data.map (fun d => d.close)) +
              i * ((listMax (data.map (fun d => d.close)) - listMin (data.map (fun d => d.close))) / 50) ≤ d.close ∧
            d.close < listMin (data.map (fun d => d.close)) +
              i * ((listMax (data.map (fun d => d.close)) - listMin (data.map (fun d => d.close))) / 50) +
              (listMax (data.map (fun d => d.close)) - listMin (data.map (fun d => d.close))) / 50
          then barVolume d else 0)
        = if d.close < listMax (data.map (fun d => d.close)) then barVolume d else 0 := by
      intro d hd
      exact bin_indicator_sum _ _ _ _ (hmem d hd).1 (hmem d hd).2 hlt
    rw [List.map_congr_left hpoint]
    rw [sum_map_ite_filter data (fun d => d.close < listMax (data.map (fun d => d.close))) barVolume]
  · have hleft : ∀ d ∈ data,
        (∑ i in Finset.range 50,
          if listMin (data.map (fun d => d.close)) +
              i * ((listMax (data.map (fun d => d.close)) - listMin (data.map (fun d => d.close))) / 50) ≤ d.close ∧
            d.close < listMin (data.map (fun d => d.close)) +
              i * ((listMax (data.map (fun d => d.close)) - listMin (data.map (fun d => d.close))) / 50) +
              (listMax (data.map (fun d => d.close)) - listMin (data.map (fun d => d.close))) / 50
          then barVolume d else 0)
        = (0 : ℚ) := by
      intro d hd
      refine Finset.sum_eq_zero ?_
      intro i _
      rw [if_neg]
      rintro ⟨_, h2⟩
      rw [← heq] at h2
      simp only [sub_self, zero_div, mul_zero, add_zero] at h2
      exact absurd h2 (not_lt.2 (hmem d hd).1)
    rw [List.map_congr_left hleft]
    have hfe : data.filter (fun d => d.close < listMax (data.map (fun d => d.close))) = [] := by
      rw [List.filter_eq_nil_iff]
      intro d hd
      simp only [decide_eq_true_eq, not_lt]
      exact heq ▸ (hmem d hd).1
    rw [hfe]
    simp

theorem foldl_pocStep (l : List VPBin) (init : VPBin) :
    init.volume ≤ (l.foldl
        (fun mx curr => if mx.volume < curr.volume then curr else mx) init).volume ∧
    ∀ x ∈ l, x.volume ≤ (l.foldl
        (fun mx curr => if mx.volume < curr.volume then curr else mx) init).volume := by
  induction l generalizing init with
  | nil => simp
  | cons b t ih =>
    have hstep : init.volume ≤ (if init.volume < b.volume then b else init).volume ∧
        b.volume ≤ (if init.volume < b.volume then b else init).volume := by
      by_cases hb : init.volume < b.volume
      · rw [if_pos hb]
        exact ⟨le_of_lt hb, le_refl _⟩
      · rw [if_neg hb]
        exact ⟨le_refl _, le_of_not_lt hb⟩
    have h1 := ih (if init.volume < b.volume then b else init)
    refine ⟨le_trans hstep.1 h1.1, ?_⟩
    intro x hx
    rcases List.mem_cons.1 hx with rfl | hx
    · exact le_trans hstep.2 h1.1
    · exact h1.2 x hx

theorem volumeProfile_poc (data : List PriceBar) (h : data ≠ []) :
    ∃ p, (calculateVolumeProfile data).poc = some p ∧
      ∀ b ∈ (calculateVolumeProfile data).profile, b.volume ≤ p.volume := by
  simp only [calculateVolumeProfile, if_neg h]
  refine ⟨_, rfl, ?_⟩
  intro b hb
  exact (foldl_pocStep _ _).2 b hb

theorem volumeProfile_degenerate (data : List PriceBar) (h : data ≠ [])
    (heq : listMin (data.map (fun d => d.close)) = listMax (data.map (fun d => d.close))) :
    (calculateVolumeProfile data).profile.length = 50 ∧
    ∀ b ∈ (calculateVolumeProfile data).profile, b.volume = 0 := by
  simp only [calculateVolumeProfile, if_neg h]
  constructor
  · simp
  · intro b hb
    rcases List.mem_map.1 hb with ⟨i, _, rfl⟩
    simp only [binVolume]
    refine List.sum_eq_zero ?_
    intro x hx
    rcases List.mem_map.1 hx with ⟨d, hd, rfl⟩
    rw [if_neg]
    rintro ⟨_, h2⟩
    rw [← heq] at h2
    simp only [sub_self, zero_div, mul_zero, add_zero] at h2
    exact absurd h2 (not_lt.2 (listMin_le (List.mem_map_of_mem _ hd)))

/-- C1: amended volume-profile claim. For every non-empty price series:
the 50 bin volumes sum to the total volume of the bars whose close is
strictly below the maximum close (a bar at the maximum close falls in no
bin, because the top bin is half-open `[binLow, binHigh)` with
`binHigh = max`); the POC bin's volume is ≥ every bin's volume; and when
`min(close) = max(close)` the profile does not degenerate to a single
bin — the code still builds 50 (zero-width) bins, each with volume 0. -/
theorem calculateVolumeProfile_spec (data : List PriceBar) (h : data ≠ []) :
    ((calculateVolumeProfile data).profile.map (fun b => b.volume)).sum
        = ((data.filter (fun d =>
            d.close < listMax (data.map (fun d => d.close)))).map barVolume).sum ∧
    (∃ p, (calculateVolumeProfile data).poc = some p ∧
      ∀ b ∈ (calculateVolumeProfile data).profile, b.volume ≤ p.volume) ∧
    (listMin (data.map (fun d => d.close)) = listMax (data.map (fun d => d.close)) →
      (calculateVolumeProfile data).profile.length = 50 ∧
      ∀ b ∈ (calculateVolumeProfile data).profile, b.volume = 0) :=
  ⟨volumeProfile_sum data h, volumeProfile_poc data h, volumeProfile_degenerate data h⟩

/-- C1: the claim as stated is false on the code: for the single bar with
close 5 and volume 1, `min(close) = max(close)`, yet the profile has 50
bins (not a single degenerate bin) and the bin volumes sum to 0, not to
the total input volume 1. -/
theorem calculateVolumeProfile_claim_counterexample :
    ((calculateVolumeProfile [⟨0, 5, 1⟩]).profile.map (fun b => b.volume)).sum ≠
      ([(⟨0, 5, 1⟩ : PriceBar)].map barVolume).sum ∧
    (calculateVolumeProfile [⟨0, 5, 1⟩]).profile.length ≠ 1 := by
  have hne : ([(⟨0, 5, 1⟩ : PriceBar)] : List PriceBar) ≠ [] := by simp
  have heq : listMin ([(⟨0, 5, 1⟩ : PriceBar)].map (fun d => d.close))
      = listMax ([(⟨0, 5, 1⟩ : PriceBar)].map (fun d => d.close)) := by
    norm_num [listMin, listMax]
  have hd := volumeProfile_degenerate [⟨0, 5, 1⟩] hne heq
  constructor
  · have hzero : ((calculateVolumeProfile [⟨0, 5, 1⟩]).profile.map (fun b => b.volume)).sum = 0 := by
      refine List.sum_eq_zero ?_
      intro x hx
      rcases List.mem_map.1 hx with ⟨b, hb, rfl⟩
      exact hd.2 b hb
    rw [hzero]
    norm_num [barVolume, jsOr]
  · rw [hd.1]
    norm_num

/-- C1 witness: the amended theorem applied to the two-bar series with
closes 0 and 1 and volumes 1 and 2: the bar at the maximum close (volume
2) is dropped and the bins sum to 1. -/
theorem calculateVolumeProfile_spec_witness :
    ((calculateVolumeProfile [⟨0, 0, 1⟩, ⟨1, 1, 2⟩]).profile.map (fun b => b.volume)).sum = 1 := by
  have h := (calculateVolumeProfile_spec [⟨0, 0, 1⟩, ⟨1, 1, 2⟩] (by simp)).1
  rw [h]
  norm_num [listMax, barVolume, jsOr]

/-!
## Options walls and max pain

Embedding of `calculateOptionsWalls(optionsData, currentPrice)`,
`calculateMaxPain(walls)` and `generateMockOptionsWalls(currentPrice)`.
-/

/-- Per-strike aggregate built by `calculateOptionsWalls` (the elements
of its `walls` array). -/
structure StrikeAgg where
  strike : ℚ
  callOI : ℚ
  putOI : ℚ
  callVolume : ℚ
  putVolume : ℚ
  callGamma : ℚ
  putGamma : ℚ
  netOI : ℚ
  netGamma : ℚ
  totalOI : ℚ
  putCallRatio : ℚ
  deriving DecidableEq, Inhabited, Repr

/-- Total pain of a candidate strike: the inner `walls.forEach` loop of
`calculateMaxPain` — calls in the money below the candidate, puts in the
money above it. -/
def totalPain (walls : List StrikeAgg) (strike : ℚ) : ℚ :=
  (walls.map (fun w =>
    (if w.strike < strike then w.callOI * (strike - w.strike) else 0) +
    (if strike < w.strike then w.putOI * (w.strike - strike) else 0))).sum

/-- One step of the outer `walls.forEach` loop of `calculateMaxPain`:
the accumulator holds the best strike and its pain so far (`none` plays
the role of `minPain = Infinity`, which every finite pain beats). -/
def maxPainStep (walls : List StrikeAgg) (acc : Option (ℚ × ℚ)) (w : StrikeAgg) :
    Option (ℚ × ℚ) :=
  match acc with
  | none => some (w.strike, totalPain walls w.strike)
  | some (s, mp) =>
    if totalPain walls w.strike < mp then some (w.strike, totalPain walls w.strike)
    else some (s, mp)

/-- Embedding of `calculateMaxPain`. -/
def calculateMaxPain (walls : List StrikeAgg) : Option ℚ :=
  (walls.foldl (maxPainStep walls) none).map Prod.fst

theorem maxPainFold (walls : List StrikeAgg) (l : List StrikeAgg) :
    ∀ (s p : ℚ), p = totalPain walls s →
    ∃ s2 p2, l.foldl (maxPainStep walls) (some (s, p)) = some (s2, p2) ∧
      p2 = totalPain walls s2 ∧
      (s2 = s ∨ ∃ w ∈ l, w.strike = s2) ∧
      p2 ≤ p ∧
      ∀ w ∈ l, p2 ≤ totalPain walls w.strike := by
  induction l with
  | nil =>
    intro s p hp
    exact ⟨s, p, rfl, hp, Or.inl rfl, le_refl p, by simp⟩
  | cons w t ih =>
    intro s p hp
    by_cases hw : totalPain walls w.strike < p
    · have hstep : (w :: t).foldl (maxPainStep walls) (some (s, p))
          = t.foldl (maxPainStep walls) (some (w.strike, totalPain walls w.strike)) := by
        simp [maxPainStep, hw]
      rcases ih w.strike (totalPain walls w.strike) rfl with
        ⟨s2, p2, hfold, hp2, hmem, hle, hall⟩
      refine ⟨s2, p2, by rw [hstep, hfold], hp2, ?_, ?_, ?_⟩
      · rcases hmem with rfl | ⟨w2, hw2, hs2⟩
        · exact Or.inr ⟨w, List.mem_cons_self w t, rfl⟩
        · exact Or.inr ⟨w2, List.mem_cons_of_mem w hw2, hs2⟩
      · exact le_trans hle (le_of_lt hw)
      · intro w2 hw2
        rcases List.mem_cons.1 hw2 with rfl | hw2
        · exact hle
        · exact hall w2 hw2
    · have hstep : (w :: t).foldl (maxPainStep walls) (some (s, p))
          = t.foldl (maxPainStep walls) (some (s, p)) := by
        simp [maxPainStep, hw]
      rcases ih s p hp with ⟨s2, p2, hfold, hp2, hmem, hle, hall⟩
      refine ⟨s2, p2, by rw [hstep, hfold], hp2, ?_, hle, ?_⟩
      · rcases hmem with rfl | ⟨w2, hw2, hs2⟩
        · exact Or.inl rfl
        · exact Or.inr ⟨w2, List.mem_cons_of_mem w hw2, hs2⟩
      · intro w2 hw2
        rcases List.mem_cons.1 hw2 with rfl | hw2
        · exact le_trans hle (le_of_not_lt hw)
        · exact hall w2 hw2

/-- C3: the max-pain search over any non-empty collection of strike
aggregates returns a strike of the collection whose total pain — the sum
over strikes below the candidate of `callOI × (c − w)` plus the sum over
strikes above it of `putOI × (w − c)` — is minimal, i.e. exactly the
result of exhaustively evaluating total pain at every strike and taking
the minimum. -/
theorem calculateMaxPain_spec (walls : List StrikeAgg) (h : walls ≠ []) :
    ∃ s, calculateMaxPain walls = some s ∧
      (∃ w ∈ walls, w.strike = s) ∧
      ∀ w ∈ walls, totalPain walls s ≤ totalPain walls w.strike := by
  cases walls with
  | nil => exact absurd rfl h
  | cons w t =>
    have hstart : (w :: t).foldl (maxPainStep (w :: t)) none
        = t.foldl (maxPainStep (w :: t)) (some (w.strike, totalPain (w :: t) w.strike)) := rfl
    rcases maxPainFold (w :: t) t w.strike (totalPain (w :: t) w.strike) rfl with
      ⟨s2, p2, hfold, hp2, hmem, hle, hall⟩
    refine ⟨s2, ?_, ?_, ?_⟩
    · unfold calculateMaxPain
      rw [hstart, hfold]
      rfl
    · rcases hmem with rfl | ⟨w2, hw2, hs2⟩
      · exact ⟨w, List.mem_cons_self w t, rfl⟩
      · exact ⟨w2, List.mem_cons_of_mem w hw2, hs2⟩
    · intro w2 hw2
      rcases List.mem_cons.1 hw2 with rfl | hw2
      · rw [← hp2]
        exact hle
      · rw [← hp2]
        exact hall w2 hw2

/-- The synthetic 3-strike chain of the claim: strikes 95/100/105 with
call OI 10/5/0 and put OI 0/5/10 (all other aggregate fields 0; the
max-pain search reads only `strike`, `callOI` and `putOI`). -/
def chain3 : List StrikeAgg :=
  [⟨95, 10, 0, 0, 0, 0, 0, 0, 0, 0, 0⟩,
   ⟨100, 5, 5, 0, 0, 0, 0, 0, 0, 0, 0⟩,
   ⟨105, 0, 10, 0, 0, 0, 0, 0, 0, 0, 0⟩]

/-- C3 witness: on the 3-strike chain the search returns strike 100,
which the theorem certifies as the exhaustive minimiser of total pain. -/
theorem calculateMaxPain_spec_witness :
    calculateMaxPain chain3 = some 100 ∧
    ∀ w ∈ chain3, totalPain chain3 100 ≤ totalPain chain3 w.strike := by
  obtain ⟨s, hs, _, hmin⟩ := calculateMaxPain_spec chain3 (by simp [chain3])
  have heval : calculateMaxPain chain3 = some 100 := by
    norm_num [calculateMaxPain, maxPainStep, totalPain, chain3]
  have hseq : s = 100 := by
    rw [heval] at hs
    exact (Option.some_inj.1 hs).symm
  exact ⟨heval, hseq ▸ hmin⟩

/-!
## Dealer gamma exposure and the gamma flip point

Embedding of `calculateDealerMetrics(options, spy)` from
`optionsCalculations.js` (the dashboard component repeats the same code
verbatim as `calcDealerMetrics`).
-/

/-- Input option contract as read by `calculateDealerMetrics`: `strike`,
`type` (here `otype`, matched against the string `"CALL"`; anything else
is treated as a put), `oi`, `gamma` and `delta`. -/
structure RawOption where
  strike : ℚ
  otype : String
  oi : ℚ
  gamma : ℚ
  delta : ℚ
  deriving DecidableEq, Inhabited, Repr

/-- Per-strike dealer aggregate (entry of the source's `strikeMap`). -/
structure StrikeGamma where
  strike : ℚ
  callGamma : ℚ
  putGamma : ℚ
  callDelta : ℚ
  putDelta : ℚ
  netGamma : ℚ
  netDelta : ℚ
  deriving DecidableEq, Inhabited, Repr

/-- Fresh `strikeMap` entry for a strike (all accumulators 0). -/
def emptyStrikeGamma (strike : ℚ) : StrikeGamma := ⟨strike, 0, 0, 0, 0, 0, 0⟩

/-- One contract added to its strike entry: dealers are short every unit
of customer open interest, so the notional is `oi * 100 * -1`. -/
def addOption (e : StrikeGamma) (opt : RawOption) : StrikeGamma :=
  let notional := opt.oi * 100 * (-1)
  if opt.otype = "CALL" then
    { e with callGamma := e.callGamma + opt.gamma * notional
             callDelta := e.callDelta + opt.delta * notional }
  else
    { e with putGamma := e.putGamma + opt.gamma * notional
             putDelta := e.putDelta + opt.delta * notional }

/-- Update of the strike-keyed map, modelled as an association list in
insertion order (the source keys a JS object by the numeric strike). -/
def upsertStrike : List StrikeGamma → RawOption → List StrikeGamma
  | [], opt => [addOption (emptyStrikeGamma opt.strike) opt]
  | e :: rest, opt =>
    if e.strike = opt.strike then addOption e opt :: rest
    else e :: upsertStrike rest opt

/-- The `options.forEach` accumulation loop of `calculateDealerMetrics`. -/
def buildStrikeMap (options : List RawOption) : List StrikeGamma :=
  options.foldl upsertStrike []

/-- The gamma-flip scan: the first adjacent pair of the ascending strike
list whose `netGamma` product is negative yields the mean of their
strikes; otherwise the flip is `null`. -/
def findGammaFlip : List StrikeGamma → Option ℚ
  | a :: b :: rest =>
    if a.netGamma * b.netGamma < 0 then some ((a.strike + b.strike) / 2)
    else findGammaFlip (b :: rest)
  | _ => none

/-- Result of `calculateDealerMetrics`. -/
structure DealerMetrics where
  strikes : List StrikeGamma
  totalGamma : ℚ
  totalDelta : ℚ
  gammaFlipPoint : Option ℚ
  isShortGamma : Bool
  maxGammaStrike : StrikeGamma
  deriving DecidableEq, Repr

/-- Embedding of `calculateDealerMetrics`; returns `none` (JS `null`)
when the chain is empty or `spy` is falsy (0). -/
def calculateDealerMetrics (options : List RawOption) (spy : ℚ) : Option DealerMetrics :=
  if options = [] ∨ spy = 0 then none
  else
    let strikes := ((buildStrikeMap options).map (fun s =>
      { s with netGamma := s.callGamma + s.putGamma
               netDelta := s.callDelta + s.putDelta })).mergeSort
      (fun a b => a.strike ≤ b.strike)
    let totalGamma := (strikes.map (fun s => s.netGamma)).sum
    let totalDelta := (strikes.map (fun s => s.netDelta)).sum
    some { strikes := strikes
           totalGamma := totalGamma
           totalDelta := totalDelta
           gammaFlipPoint := findGammaFlip strikes
           isShortGamma := decide (totalGamma < 0)
           maxGammaStrike := strikes.foldl
             (fun mx s => if |mx.netGamma| < |s.netGamma| then s else mx)
             (strikes.headD default) }

/-- Spec-side reading of the gamma-flip rule, following the spec's words:
scanning the (ascending) strike list, the first adjacent pair whose
`netGamma` signs differ — one strictly positive, one strictly negative —
yields the mean of the two strikes; if no such pair exists the flip is
undefined. -/
def firstSignFlip : List StrikeGamma → Option ℚ
  | a :: b :: rest =>
    if (0 < a.netGamma ∧ b.netGamma < 0) ∨ (a.netGamma < 0 ∧ 0 < b.netGamma) then
      some ((a.strike + b.strike) / 2)
    else firstSignFlip (b :: rest)
  | _ => none

theorem findGammaFlip_eq_firstSignFlip (l : List StrikeGamma) :
    findGammaFlip l = firstSignFlip l := by
  induction l with
  | nil => rfl
  | cons a t ih =>
    cases t with
    | nil => rfl
    | cons b rest =>
      unfold findGammaFlip firstSignFlip
      by_cases h : a.netGamma * b.netGamma < 0
      · rw [if_pos h, if_pos (mul_neg_iff.1 h)]
      · rw [if_neg h, if_neg (fun hc => h (mul_neg_iff.2 hc))]
        exact ih

/-- C4: for every non-empty options chain and non-zero spot, the dealer
metrics exist, their strike list is sorted ascending by strike, and the
gamma-flip point is exactly the mean of the strikes of the first adjacent
pair with strictly opposite `netGamma` signs — `none` (undefined, not 0)
when no such adjacent sign change exists.  `firstSignFlip` is the
spec-side statement of the rule, and the code's product test
`netGamma_i * netGamma_{i+1} < 0` provably coincides with it. -/
theorem calculateDealerMetrics_flip (options : List RawOption) (spy : ℚ)
    (h1 : options ≠ []) (h2 : spy ≠ 0) :
    ∃ m, calculateDealerMetrics options spy = some m ∧
      m.strikes.Pairwise (fun a b => a.strike ≤ b.strike) ∧
      m.gammaFlipPoint = firstSignFlip m.strikes := by
  have hguard : ¬ (options = [] ∨ spy = 0) := by
    rintro (h | h)
    · exact h1 h
    · exact h2 h
  simp only [calculateDealerMetrics, if_neg hguard]
  refine ⟨_, rfl, ?_, findGammaFlip_eq_firstSignFlip _⟩
  have hs := @List.sorted_mergeSort StrikeGamma
    (fun a b => decide (a.strike ≤ b.strike))
    (fun a b c hab hbc => by
      simp only [decide_eq_true_eq] at *
      exact le_trans hab hbc)
    (fun a b => by
      simp only [Bool.or_eq_true, decide_eq_true_eq]
      exact le_total a.strike b.strike)
    ((buildStrikeMap options).map (fun s =>
      { s with netGamma := s.callGamma + s.putGamma
               netDelta := s.callDelta + s.putDelta }))
  exact hs.imp (fun h => by simpa using h)

/-- C4 witness: a two-contract ladder whose dealer `netGamma` is positive
at strike 500 and negative at strike 505 (the dealer notional `-100·oi`
flips each contract's gamma sign), so the flip point is exactly
`(500 + 505) / 2 = 502.5`. -/
theorem calculateDealerMetrics_flip_witness :
    ∃ m, calculateDealerMetrics
        [⟨500, "CALL", 1, -1, 0⟩, ⟨505, "CALL", 1, 1, 0⟩] 595 = some m ∧
      m.gammaFlipPoint = some (1005 / 2) := by
  obtain ⟨m, hm, _, hflip⟩ := calculateDealerMetrics_flip
    [⟨500, "CALL", 1, -1, 0⟩, ⟨505, "CALL", 1, 1, 0⟩] 595 (by simp) (by norm_num)
  refine ⟨m, hm, ?_⟩
  rw [hflip]
  have hstrikes : m.strikes =
      [{ emptyStrikeGamma 500 with callGamma := 100, netGamma := 100 },
       { emptyStrikeGamma 505 with callGamma := -100, netGamma := -100 }] := by
    have := hm
    simp only [calculateDealerMetrics, if_neg (by
      rintro (h | h)
      · simp at h
      · norm_num at h :
      ¬ ([(⟨500, "CALL", 1, -1, 0⟩ : RawOption), ⟨505, "CALL", 1, 1, 0⟩] = [] ∨ (595:ℚ) = 0))] at this
    rw [← Option.some_inj.1 this]
    norm_num [buildStrikeMap, upsertStrike, addOption, emptyStrikeGamma,
      List.mergeSort]
  rw [hstrikes]
  norm_num [firstSignFlip, emptyStrikeGamma]

/-!
## Sentiment scorer

Embedding of `generatePrediction(volMetrics, dealerMetrics, spy, skew)`
from `optionsCalculations.js`; the dashboard component's `genPrediction`
repeats the identical code.  `new Date().toISOString()` is modelled by an
explicit `now : String` argument.
-/

/-- Volatility metrics record as produced by
`calculateVolatilityMetrics`; the scorer reads `pcrVolume`,
`ivHVSpread`, `vixLevel` and `ivSkew`. -/
structure VolMetrics where
  atmIV : ℚ
  historicalVol : ℚ
  ivHVSpread : ℚ
  pcrVolume : ℚ
  pcrOI : ℚ
  ivSkew : ℚ
  vixLevel : ℚ
  deriving DecidableEq, Inhabited, Repr

/-- One explainability entry pushed onto `signals`. -/
structure Signal where
  factor : String
  sentiment : String
  weight : ℕ
  deriving DecidableEq, Repr

/-- Result record of `generatePrediction`. -/
structure Prediction where
  prediction : String
  confidence : ℚ
  signals : List Signal
  bullishScore : ℕ
  bearishScore : ℕ
  timestamp : String
  spyPriceAtPrediction : ℚ
  deriving DecidableEq, Repr

/-- First factor block: dealer gamma regime.  When dealers are short
gamma, compare spot against the flip point (`spy > gammaFlipPoint`,
where a `null` flip compares as 0); otherwise a weight-1 bearish signal.
Returns `(bull increment, bear increment, signals pushed)`. -/
def dealerGammaFactor (dm : DealerMetrics) (spy : ℚ) : ℕ × ℕ × List Signal :=
  if dm.isShortGamma then
    if dm.gammaFlipPoint.getD 0 < spy then
      (2, 0, [⟨"Dealer Short Gamma Above Flip", "bullish", 2⟩])
    else
      (0, 2, [⟨"Dealer Short Gamma Below Flip", "bearish", 2⟩])
  else
    (0, 1, [⟨"Dealer Long Gamma (Dampening)", "bearish", 1⟩])

/-- Second factor block: put/call volume ratio thresholds 1.2 / 0.7. -/
def pcrFactor (vm : VolMetrics) : ℕ × ℕ × List Signal :=
  if 12/10 < vm.pcrVolume then (1, 0, [⟨"High Put Buying (PCR > 1.2)", "bullish", 1⟩])
  else if vm.pcrVolume < 7/10 then (0, 1, [⟨"High Call Buying (PCR < 0.7)", "bearish", 1⟩])
  else (0, 0, [])

/-- Third factor block: IV-minus-HV spread thresholds 0.05 / −0.02. -/
def ivHvFactor (vm : VolMetrics) : ℕ × ℕ × List Signal :=
  if 1/20 < vm.ivHVSpread then (0, 1, [⟨"IV Premium to HV (Fear)", "bearish", 1⟩])
  else if vm.ivHVSpread < -(1/50) then (1, 0, [⟨"IV Discount to HV", "bullish", 1⟩])
  else (0, 0, [])

/-- Fourth factor block: VIX level thresholds 25 / 12. -/
def vixFactor (vm : VolMetrics) : ℕ × ℕ × List Signal :=
  if 25 < vm.vixLevel then (2, 0, [⟨"Elevated VIX (>25)", "bullish", 2⟩])
  else if vm.vixLevel < 12 then (0, 1, [⟨"Low VIX (<12)", "bearish", 1⟩])
  else (0, 0, [])

/-- Fifth factor block: OTM IV skew threshold 0.05. -/
def ivSkewFactor (vm : VolMetrics) : ℕ × ℕ × List Signal :=
  if 1/20 < vm.ivSkew then (0, 1, [⟨"High Put Skew (>5%)", "bearish", 1⟩])
  else (0, 0, [])

/-- Sixth factor block: tail-risk (SKEW) index thresholds 140 / 120. -/
def tailSkewFactor (skew : ℚ) : ℕ × ℕ × List Signal :=
  if 140 < skew then (0, 2, [⟨"Elevated SKEW (>140)", "bearish", 2⟩])
  else if skew < 120 then (1, 0, [⟨"Low SKEW (<120)", "bullish", 1⟩])
  else (0, 0, [])

/-- Embedding of `generatePrediction`: `null` for missing inputs, else
the six factor blocks accumulate `bull`, `bear` and `signals` in source
order. -/
def generatePrediction (volMetrics : Option VolMetrics) (dealerMetrics : Option DealerMetrics)
    (spy skew : ℚ) (now : String) : Option Prediction :=
  match volMetrics, dealerMetrics with
  | some vm, some dm =>
    let f1 := dealerGammaFactor dm spy
    let f2 := pcrFactor vm
    let f3 := ivHvFactor vm
    let f4 := vixFactor vm
    let f5 := ivSkewFactor vm
    let f6 := tailSkewFactor skew
    let bull := f1.1 + f2.1 + f3.1 + f4.1 + f5.1 + f6.1
    let bear := f1.2.1 + f2.2.1 + f3.2.1 + f4.2.1 + f5.2.1 + f6.2.1
    some { prediction := if bear < bull then "BULLISH" else "BEARISH"
           confidence := |(bull : ℚ) - (bear : ℚ)| / ((bull : ℚ) + (bear : ℚ))
           signals := f1.2.2 ++ f2.2.2 ++ f3.2.2 ++ f4.2.2 ++ f5.2.2 ++ f6.2.2
           bullishScore := bull
           bearishScore := bear
           timestamp := now
           spyPriceAtPrediction := spy }
  | _, _ => none

theorem dealerGammaFactor_contributes (dm : DealerMetrics) (spy : ℚ) :
    1 ≤ (dealerGammaFactor dm spy).1 + (dealerGammaFactor dm spy).2.1 := by
  unfold dealerGammaFactor
  by_cases h1 : dm.isShortGamma
  · by_cases h2 : dm.gammaFlipPoint.getD 0 < spy
    · simp [h1, h2]
    · simp [h1, h2]
  · simp [h1]

/-- C5: whenever the scorer produces a result, its direction is BULLISH
exactly when the bullish score strictly exceeds the bearish score and
BEARISH otherwise, and its confidence equals `|bull − bear| / (bull +
bear)`.  The denominator is never 0 — the dealer-gamma factor always
contributes, giving `bull + bear ≥ 1` — so the claim's special case
`bull + bear = 0 ⇒ confidence 0` holds vacuously and no division by zero
occurs. -/
theorem generatePrediction_direction_confidence (vm : VolMetrics) (dm : DealerMetrics)
    (spy skew : ℚ) (now : String) (p : Prediction)
    (hp : generatePrediction (some vm) (some dm) spy skew now = some p) :
    (p.prediction = if p.bearishScore < p.bullishScore then "BULLISH" else "BEARISH") ∧
    p.confidence
      = |(p.bullishScore : ℚ) - (p.bearishScore : ℚ)|
          / ((p.bullishScore : ℚ) + (p.bearishScore : ℚ)) ∧
    1 ≤ p.bullishScore + p.bearishScore ∧
    (p.bullishScore + p.bearishScore = 0 → p.confidence = 0) := by
  simp only [generatePrediction] at hp
  have hrec := Option.some_inj.1 hp
  subst hrec
  have hf1 := dealerGammaFactor_contributes dm spy
  refine ⟨rfl, rfl, ?_, ?_⟩
  · simp only
    omega
  · intro h
    simp only at h
    omega

/-- C5 witness: the theorem applied to a concrete neutral input (all
factor thresholds inactive except the mandatory dealer-gamma factor),
giving direction BEARISH with scores 0/1 and confidence 1. -/
theorem generatePrediction_direction_confidence_witness :
    ∃ p, generatePrediction (some ⟨1/5, 3/20, 0, 1, 1, 0, 15⟩)
        (some ⟨[], 0, 0, none, false, emptyStrikeGamma 0⟩) 595 130 "T" = some p ∧
      p.prediction = "BEARISH" ∧ p.confidence = 1 ∧ p.bullishScore = 0 ∧
      p.bearishScore = 1 := by
  have hp : generatePrediction (some ⟨1/5, 3/20, 0, 1, 1, 0, 15⟩)
      (some ⟨[], 0, 0, none, false, emptyStrikeGamma 0⟩) 595 130 "T" =
      some { prediction := "BEARISH"
             confidence := 1
             signals := [⟨"Dealer Long Gamma (Dampening)", "bearish", 1⟩]
             bullishScore := 0
             bearishScore := 1
             timestamp := "T"
             spyPriceAtPrediction := 595 } := by
    norm_num [generatePrediction, dealerGammaFactor, pcrFactor, ivHvFactor,
      vixFactor, ivSkewFactor, tailSkewFactor]
  have h := generatePrediction_direction_confidence _ _ 595 130 "T" _ hp
  exact ⟨_, hp, by simp [h.1], by simp [h.2.1], rfl, rfl⟩

/-- C10: for every input on which the scorer produces a result, the
dealer-gamma factor contributes weight at least 1, the summed scores
satisfy `bull + bear ≥ 1`, and the denominator of the confidence
division is nonzero — no division by zero, despite the absence of an
explicit `bull + bear = 0` special case in the code. -/
theorem generatePrediction_no_div_by_zero (vm : VolMetrics) (dm : DealerMetrics)
    (spy skew : ℚ) (now : String) :
    ∃ p, generatePrediction (some vm) (some dm) spy skew now = some p ∧
      1 ≤ (dealerGammaFactor dm spy).1 + (dealerGammaFactor dm spy).2.1 ∧
      1 ≤ p.bullishScore + p.bearishScore ∧
      ((p.bullishScore : ℚ) + (p.bearishScore : ℚ)) ≠ 0 := by
  refine ⟨_, rfl, dealerGammaFactor_contributes dm spy, ?_, ?_⟩
  · simp only [generatePrediction]
    have := dealerGammaFactor_contributes dm spy
    omega
  · simp only [generatePrediction]
    have h := dealerGammaFactor_contributes dm spy
    have hne : (dealerGammaFactor dm spy).1 + (pcrFactor vm).1 + (ivHvFactor vm).1
        + (vixFactor vm).1 + (ivSkewFactor vm).1 + (tailSkewFactor skew).1
        + ((dealerGammaFactor dm spy).2.1 + (pcrFactor vm).2.1 + (ivHvFactor vm).2.1
        + (vixFactor vm).2.1 + (ivSkewFactor vm).2.1 + (tailSkewFactor skew).2.1) ≠ 0 := by
      omega
    intro hcon
    exact hne (by exact_mod_cast hcon)

/-- Input option record as read by `calculateOptionsWalls`: `type` is
matched case-insensitively against `call`/`put` (here field `wtype`),
and open interest is `opt.openInterest || opt.oi || 0`. -/
structure WallOption where
  strike : ℚ
  wtype : String
  openInterest : ℚ
  oi : ℚ
  volume : ℚ
  gamma : ℚ
  deriving DecidableEq, Inhabited, Repr

/-- Fresh per-strike aggregate (all accumulators 0; the derived fields
`netOI`, `netGamma`, `totalOI`, `putCallRatio` are filled later by the
`walls` map step, as in the source). -/
def emptyStrikeAgg (strike : ℚ) : StrikeAgg := ⟨strike, 0, 0, 0, 0, 0, 0, 0, 0, 0, 0⟩

/-- One contract accumulated into its strike aggregate: calls and puts
add open interest, volume and OI-weighted gamma into their buckets;
unknown types are ignored. -/
def wallAddOption (e : StrikeAgg) (opt : WallOption) : StrikeAgg :=
  let optType := opt.wtype.toLower
  let openInterest := jsOr opt.openInterest (jsOr opt.oi 0)
  if optType = "call" then
    { e with callOI := e.callOI + openInterest
             callVolume := e.callVolume + opt.volume
             callGamma := e.callGamma + opt.gamma * openInterest }
  else if optType = "put" then
    { e with putOI := e.putOI + openInterest
             putVolume := e.putVolume + opt.volume
             putGamma := e.putGamma + opt.gamma * openInterest }
  else e

/-- Update of the strike-keyed object, modelled as an association list in
insertion order. -/
def wallUpsert : List StrikeAgg → WallOption → List StrikeAgg
  | [], opt => [wallAddOption (emptyStrikeAgg opt.strike) opt]
  | e :: rest, opt =>
    if e.strike = opt.strike then wallAddOption e opt :: rest
    else e :: wallUpsert rest opt

/-- The `optionsData.forEach` accumulation loop of
`calculateOptionsWalls`. -/
def buildWallMap (optionsData : List WallOption) : List StrikeAgg :=
  optionsData.foldl wallUpsert []

/-- The `walls` array: each aggregate completed with its derived fields. -/
def wallsWithNet (m : List StrikeAgg) : List StrikeAgg :=
  m.map (fun s =>
    { s with netOI := s.callOI - s.putOI
             netGamma := s.callGamma - s.putGamma
             totalOI := s.callOI + s.putOI
             putCallRatio := if 0 < s.callOI then s.putOI / s.callOI else 0 })

/-- Result record of `calculateOptionsWalls` /
`generateMockOptionsWalls`. -/
structure WallsResult where
  walls : List StrikeAgg
  maxPain : Option ℚ
  significantWalls : List StrikeAgg
  supportWalls : List StrikeAgg
  resistanceWalls : List StrikeAgg
  deriving DecidableEq, Repr

/-- Computable rational stand-in for JS `Math.exp` (truncated Taylor
series).  `expQ 0 = 1` exactly, as for the real exponential; no theorem
below depends on any of its other values. -/
def expQ (x : ℚ) : ℚ :=
  ((List.range 30).map (fun k => x ^ k / (Nat.factorial k : ℚ))).sum

/-- Embedding of `generateMockOptionsWalls(currentPrice)`, the
`Math.random()`-based placeholder generator the walls builder falls back
to on an empty chain.  The random stream is the explicit oracle `rand`;
iteration `j` of the loop (strike offset `j − 10`) consumes the four
stream values at positions `4j … 4j+3` in call order. -/
def generateMockOptionsWalls (currentPrice : ℚ) (rand : ℕ → ℚ) : WallsResult :=
  let basePrice := jsOr currentPrice 595
  let walls0 : List StrikeAgg := (List.range 21).map (fun (j : ℕ) =>
    let i : ℚ := (j : ℚ) - 10
    let strike := jsRound (basePrice + i * 5)
    let distanceFromPrice := |strike - basePrice|
    let baseOI := 50000 * expQ (-distanceFromPrice / 15)
    let callSkew : ℚ := if basePrice < strike then 8/10 else 12/10
    let putSkew : ℚ := if strike < basePrice then 13/10 else 7/10
    { strike := strike
      callOI := jsRound (baseOI * callSkew * (8/10 + rand (4*j) * (4/10)))
      putOI := jsRound (baseOI * putSkew * (8/10 + rand (4*j+1) * (4/10)))
      callVolume := jsRound (baseOI * (1/10) * rand (4*j+2))
      putVolume := jsRound (baseOI * (1/10) * rand (4*j+3))
      callGamma := baseOI * (1/1000) * callSkew
      putGamma := baseOI * (1/1000) * putSkew
      netOI := 0, netGamma := 0, totalOI := 0, putCallRatio := 0 })
  let wallsWithMetrics := wallsWithNet walls0
  let maxPain := calculateMaxPain wallsWithMetrics
  let sortedByOI := wallsWithMetrics.mergeSort (fun a b => b.totalOI ≤ a.totalOI)
  let threshold :=
    ((sortedByOI[(⌊(sortedByOI.length : ℚ) * (3/10)⌋).toNat]?).map
      (fun w => jsOr w.totalOI 0)).getD 0
  let significantWalls := wallsWithMetrics.filter (fun w => threshold ≤ w.totalOI)
  { walls := wallsWithMetrics
    maxPain := maxPain
    significantWalls := significantWalls
    supportWalls := significantWalls.filter (fun w => w.strike < basePrice ∧ w.callOI < w.putOI)
    resistanceWalls := significantWalls.filter (fun w => basePrice < w.strike ∧ w.putOI < w.callOI) }

/-- Embedding of `calculateOptionsWalls(optionsData, currentPrice)`:
with an empty chain it delegates to the random mock generator; otherwise
it aggregates per strike, computes max pain, ranks walls by total open
interest with an 80th-percentile significance threshold, and splits the
significant walls into support (below spot, put-heavy) and resistance
(above spot, call-heavy). -/
def calculateOptionsWalls (optionsData : List WallOption) (currentPrice : ℚ)
    (rand : ℕ → ℚ) : WallsResult :=
  if optionsData = [] then generateMockOptionsWalls currentPrice rand
  else
    let walls := wallsWithNet (buildWallMap optionsData)
    let maxPain := calculateMaxPain walls
    let sortedByOI := walls.mergeSort (fun a b => b.totalOI ≤ a.totalOI)
    let threshold :=
      ((sortedByOI[(⌊(sortedByOI.length : ℚ) * (2/10)⌋).toNat]?).map
        (fun w => jsOr w.totalOI 0)).getD 0
    let significantWalls := walls.filter (fun w => threshold ≤ w.totalOI)
    { walls := walls.mergeSort (fun a b => a.strike ≤ b.strike)
      maxPain := maxPain
      significantWalls := significantWalls
      supportWalls := significantWalls.filter
        (fun w => w.strike < currentPrice ∧ w.callOI < w.putOI)
      resistanceWalls := significantWalls.filter
        (fun w => currentPrice < w.strike ∧ w.putOI < w.callOI) }

/-- Erases the wall-clock field of a prediction, leaving its analytic
content. -/
def stripTimestamp (p : Prediction) : Prediction := { p with timestamp := "" }

theorem jsRound_intCast (n : ℤ) : jsRound (n : ℚ) = (n : ℚ) := by
  unfold jsRound
  rw [Int.floor_int_add]
  have h0 : ⌊(1/2 : ℚ)⌋ = 0 := by
    apply Int.floor_eq_zero_iff.2
    constructor
    · norm_num
    · norm_num
  rw [h0, add_zero]

theorem expQ_zero : expQ 0 = 1 := by
  have key : ∀ n : ℕ, ((List.range (n+1)).map
      (fun k => (0:ℚ) ^ k / (Nat.factorial k : ℚ))).sum = 1 := by
    intro n
    induction n with
    | zero => norm_num [List.range_succ, Nat.factorial]
    | succ m ih =>
      rw [List.range_succ, List.map_append, List.sum_append, ih]
      norm_num
  exact key 29

/-- C9: amended purity claim. The analytic content of the sentiment
scorer is deterministic: two runs on identical inputs agree on every
field except `timestamp`, which copies the wall clock.  The options-walls
builder is deterministic on every non-empty chain; on an empty chain it
delegates to the `Math.random()`-based mock generator (see the
counterexample for both oracles). -/
theorem analytics_determinism (vm : Option VolMetrics) (dm : Option DealerMetrics)
    (spy skew : ℚ) (t1 t2 : String)
    (opts : List WallOption) (price : ℚ) (r1 r2 : ℕ → ℚ) (h : opts ≠ []) :
    (generatePrediction vm dm spy skew t1).map stripTimestamp
      = (generatePrediction vm dm spy skew t2).map stripTimestamp ∧
    calculateOptionsWalls opts price r1 = calculateOptionsWalls opts price r2 := by
  constructor
  · cases vm with
    | none => rfl
    | some v =>
      cases dm with
      | none => rfl
      | some d => simp [generatePrediction, stripTimestamp]
  · simp only [calculateOptionsWalls, if_neg h]

/-- C9: the claim as stated is false on the code: the sentiment scorer
embeds the wall-clock timestamp in its output, so two runs on identical
inputs at different clock readings differ; and on an empty chain the
walls builder consumes `Math.random()`, so two runs with different
random streams differ (here in `walls[10].callOI`, 48000 vs 60000). -/
theorem purity_claim_counterexample :
    generatePrediction (some ⟨1/5, 3/20, 0, 1, 1, 0, 15⟩)
        (some ⟨[], 0, 0, none, false, emptyStrikeGamma 0⟩) 595 130 "a"
      ≠ generatePrediction (some ⟨1/5, 3/20, 0, 1, 1, 0, 15⟩)
        (some ⟨[], 0, 0, none, false, emptyStrikeGamma 0⟩) 595 130 "b" ∧
    calculateOptionsWalls [] 595 (fun _ => 0)
      ≠ calculateOptionsWalls [] 595 (fun n => if n = 40 then 1/2 else 0) := by
  constructor
  · intro h
    have h2 := congrArg (Option.map (fun p => p.timestamp)) h
    simp only [generatePrediction, Option.map_some] at h2
    have : "a" = "b" := Option.some_inj.1 h2
    simp at this
  · intro h
    have h2 := congrArg (fun w => (w.walls[10]?).map (fun x => x.callOI)) h
    have hv1 : ((calculateOptionsWalls [] 595 (fun _ => 0)).walls[10]?).map
        (fun x => x.callOI) = some 48000 := by
      have hif : calculateOptionsWalls [] 595 (fun _ => 0)
          = generateMockOptionsWalls 595 (fun _ => 0) := by
        simp [calculateOptionsWalls]
      rw [hif]
      simp only [generateMockOptionsWalls, wallsWithNet]
      rw [List.getElem?_map, List.getElem?_map, List.getElem?_range (by norm_num)]
      norm_num [jsOr, expQ_zero]
      have hr : jsRound (595:ℚ) = 595 := by
        exact_mod_cast jsRound_intCast 595
      rw [hr]
      norm_num [expQ_zero]
      exact_mod_cast jsRound_intCast 48000
    have hv2 : ((calculateOptionsWalls [] 595
        (fun n => if n = 40 then 1/2 else 0)).walls[10]?).map
        (fun x => x.callOI) = some 60000 := by
      have hif : calculateOptionsWalls [] 595 (fun n => if n = 40 then 1/2 else 0)
          = generateMockOptionsWalls 595 (fun n => if n = 40 then 1/2 else 0) := by
        simp [calculateOptionsWalls]
      rw [hif]
      simp only [generateMockOptionsWalls, wallsWithNet]
      rw [List.getElem?_map, List.getElem?_map, List.getElem?_range (by norm_num)]
      norm_num [jsOr, expQ_zero]
      have hr : jsRound (595:ℚ) = 595 := by
        exact_mod_cast jsRound_intCast 595
      rw [hr]
      norm_num [expQ_zero]
      exact_mod_cast jsRound_intCast 60000
    have h3 : ((calculateOptionsWalls [] 595 (fun _ => 0)).walls[10]?).map
        (fun x => x.callOI) = ((calculateOptionsWalls [] 595
          (fun n => if n = 40 then 1/2 else 0)).walls[10]?).map (fun x => x.callOI) := h2
    rw [hv1, hv2] at h3
    simp at h3

/-- C9 witness: the amended determinism theorem applied at concrete
inputs — a one-contract (non-empty) chain, two distinct random streams,
two distinct clock readings. -/
theorem analytics_determinism_witness :
    (generatePrediction (some ⟨1/5, 3/20, 0, 1, 1, 0, 15⟩)
        (some ⟨[], 0, 0, none, false, emptyStrikeGamma 0⟩) 595 130 "a").map stripTimestamp
      = (generatePrediction (some ⟨1/5, 3/20, 0, 1, 1, 0, 15⟩)
        (some ⟨[], 0, 0, none, false, emptyStrikeGamma 0⟩) 595 130 "b").map stripTimestamp ∧
    calculateOptionsWalls [⟨500, "CALL", 0, 1, 1, 0⟩] 595 (fun _ => 0)
      = calculateOptionsWalls [⟨500, "CALL", 0, 1, 1, 0⟩] 595 (fun _ => 1/2) :=
  analytics_determinism (some ⟨1/5, 3/20, 0, 1, 1, 0, 15⟩)
    (some ⟨[], 0, 0, none, false, emptyStrikeGamma 0⟩) 595 130 "a" "b"
    [⟨500, "CALL", 0, 1, 1, 0⟩] 595 (fun _ => 0) (fun _ => 1/2) (by simp)

/-!
## Support/resistance level clustering

Embedding of `calculateSupportResistance(data, swings)`: swing highs
(resistance) and swing lows (support) are greedily clustered; a point
joins the first existing cluster whose price is within 0.5% (relative to
the cluster's running-mean price), else opens a new cluster.  The
`members` field records which input points a cluster absorbed: it is
specification-only instrumentation (the JS object has no such field) and
does not influence `price`, `touches`, `strength` or the control flow,
which follow the source exactly.
-/

/-- Type of a swing-derived level. -/
inductive SRType where
  | support : SRType
  | resistance : SRType
  deriving DecidableEq, Inhabited, Repr

/-- One input point of the clustering: a swing high or low with its
price and strength. -/
structure SRPoint where
  price : ℚ
  srtype : SRType
  strength : ℚ
  deriving DecidableEq, Inhabited, Repr

/-- One cluster; `members` lists the indices of the absorbed points. -/
structure SRCluster where
  price : ℚ
  srtype : SRType
  touches : ℕ
  strength : ℚ
  members : List ℕ
  deriving DecidableEq, Inhabited, Repr

/-- A fresh single-point cluster. -/
def srNew (p : SRPoint) (idx : ℕ) : SRCluster :=
  ⟨p.price, p.srtype, 1, p.strength, [idx]⟩

/-- Merging a point into an existing cluster: one more touch, strengths
added, price reset to the mean of cluster and point price. -/
def srMerge (c : SRCluster) (p : SRPoint) (idx : ℕ) : SRCluster :=
  ⟨(c.price + p.price) / 2, c.srtype, c.touches + 1, c.strength + p.strength,
    c.members ++ [idx]⟩

/-- One step of the `allPoints.forEach` loop: `clusters.find` returns the
first cluster whose price differs from the point by less than 0.5%
relative to the cluster price; it is updated in place, else a new
cluster is appended. -/
def srInsert : List SRCluster → SRPoint × ℕ → List SRCluster
  | [], (p, idx) => [srNew p idx]
  | c :: rest, (p, idx) =>
    if |c.price - p.price| / c.price < 5 / 1000 then srMerge c p idx :: rest
    else c :: srInsert rest (p, idx)

/-- The combined, typed input point list (`allPoints` in the source):
highs become resistance, lows become support, in that order. -/
def srPoints (highs lows : List (ℚ × ℚ)) : List SRPoint :=
  highs.map (fun h => SRPoint.mk h.1 SRType.resistance h.2)
    ++ lows.map (fun l => SRPoint.mk l.1 SRType.support l.2)

/-- The clustering loop over all points (with their indices). -/
def srClusters (points : List SRPoint) : List SRCluster :=
  points.enum.foldl (fun cs ip => srInsert cs (ip.2, ip.1)) []

/-- Final ranked level. -/
structure SRLevel where
  price : ℚ
  srtype : SRType
  touches : ℕ
  strength : ℚ
  distance : ℚ
  members : List ℕ
  deriving DecidableEq, Repr

/-- Embedding of `calculateSupportResistance`: clusters are rescaled
(`touches × strength / clusterCount`), given a distance from spot, sorted
by descending strength (stable, as JS `sort`) and truncated to the top
8. -/
def calculateSupportResistance (highs lows : List (ℚ × ℚ))
    (currentPrice : Option ℚ) : List SRLevel :=
  let clusters := srClusters (srPoints highs lows)
  ((clusters.map (fun c =>
      SRLevel.mk c.price c.srtype c.touches
        ((c.touches * c.strength) / clusters.length)
        (match currentPrice with
         | some cp => |(c.price - cp) / cp * 100|
         | none => 0)
        c.members)).mergeSort (fun a b => b.strength ≤ a.strength)).take 8

theorem srInsert_length (cs : List SRCluster) (p : SRPoint) (idx : ℕ) :
    (srInsert cs (p, idx)).length ≤ cs.length + 1 := by
  induction cs with
  | nil => simp [srInsert]
  | cons c rest ih =>
    unfold srInsert
    by_cases h : |c.price - p.price| / c.price < 5 / 1000
    · simp [h]
    · simp only [h, if_false, List.length_cons]
      omega

theorem srInsert_countP_preserved (cs : List SRCluster) (p : SRPoint) (k i : ℕ)
    (hik : i ≠ k) :
    (srInsert cs (p, k)).countP (fun c => decide (i ∈ c.members))
      = cs.countP (fun c => decide (i ∈ c.members)) := by
  induction cs with
  | nil => simp [srInsert, srNew, List.countP_cons, hik]
  | cons c rest ih =>
    unfold srInsert
    by_cases h : |c.price - p.price| / c.price < 5 / 1000
    · rw [if_pos h]
      simp only [List.countP_cons, srMerge, List.mem_append, List.mem_singleton]
      simp [hik]
    · rw [if_neg h]
      simp only [List.countP_cons, ih]

theorem srInsert_countP_new (cs : List SRCluster) (p : SRPoint) (k : ℕ)
    (h : ∀ c ∈ cs, k ∉ c.members) :
    (srInsert cs (p, k)).countP (fun c => decide (k ∈ c.members)) = 1 := by
  induction cs with
  | nil => simp [srInsert, srNew, List.countP_cons]
  | cons c rest ih =>
    unfold srInsert
    by_cases hc : |c.price - p.price| / c.price < 5 / 1000
    · rw [if_pos hc]
      have hrest : rest.countP (fun c => decide (k ∈ c.members)) = 0 := by
        rw [List.countP_eq_zero]
        intro c2 hc2
        simpa using h c2 (List.mem_cons_of_mem c hc2)
      simp [List.countP_cons, srMerge, hrest]
    · rw [if_neg hc]
      have hk := h c (List.mem_cons_self c rest)
      simp only [List.countP_cons, ih (fun c2 hc2 => h c2 (List.mem_cons_of_mem c hc2))]
      simp [hk]

theorem srInsert_members_bound (cs : List SRCluster) (p : SRPoint) (k : ℕ)
    (h : ∀ c ∈ cs, ∀ i ∈ c.members, i < k) :
    ∀ c ∈ srInsert cs (p, k), ∀ i ∈ c.members, i < k + 1 := by
  induction cs with
  | nil =>
    intro c hc i hi
    simp only [srInsert, srNew, List.mem_singleton] at hc
    subst hc
    simp only [List.mem_singleton] at hi
    omega
  | cons c rest ih =>
    intro c2 hc2 i hi
    unfold srInsert at hc2
    by_cases hcond : |c.price - p.price| / c.price < 5 / 1000
    · rw [if_pos hcond] at hc2
      rcases List.mem_cons.1 hc2 with rfl | hc2
      · simp only [srMerge, List.mem_append, List.mem_singleton] at hi
        rcases hi with hi | rfl
        · exact lt_trans (h c (List.mem_cons_self c rest) i hi) (by omega)
        · omega
      · exact lt_trans (h c2 (List.mem_cons_of_mem c hc2) i hi) (by omega)
    · rw [if_neg hcond] at hc2
      rcases List.mem_cons.1 hc2 with rfl | hc2
      · exact lt_trans (h c2 (List.mem_cons_self c2 rest) i hi) (by omega)
      · exact ih (fun c3 hc3 => h c3 (List.mem_cons_of_mem c hc3)) c2 hc2 i hi

theorem srFold_inv (ps : List SRPoint) :
    ∀ (k : ℕ) (cs : List SRCluster),
    (∀ i, i < k → cs.countP (fun c => decide (i ∈ c.members)) = 1) →
    (∀ c ∈ cs, ∀ i ∈ c.members, i < k) →
    (∀ i, i < k + ps.length →
      ((ps.enumFrom k).foldl (fun cs2 ip => srInsert cs2 (ip.2, ip.1)) cs).countP
        (fun c => decide (i ∈ c.members)) = 1) ∧
    (∀ c ∈ (ps.enumFrom k).foldl (fun cs2 ip => srInsert cs2 (ip.2, ip.1)) cs,
      ∀ i ∈ c.members, i < k + ps.length) ∧
    ((ps.enumFrom k).foldl (fun cs2 ip => srInsert cs2 (ip.2, ip.1)) cs).length
      ≤ cs.length + ps.length := by
  induction ps with
  | nil =>
    intro k cs h1 h2
    refine ⟨?_, ?_, ?_⟩
    · intro i hi
      exact h1 i (by simpa using hi)
    · intro c hc i hi
      simp only [List.enumFrom, List.foldl] at hc
      simpa using h2 c hc i hi
    · simp
  | cons p t ih =>
    intro k cs h1 h2
    have hknot : ∀ c ∈ cs, k ∉ c.members := by
      intro c hc hk
      exact lt_irrefl k (h2 c hc k hk)
    have h1' : ∀ i, i < k + 1 →
        (srInsert cs (p, k)).countP (fun c => decide (i ∈ c.members)) = 1 := by
      intro i hi
      by_cases hik : i = k
      · subst hik
        exact srInsert_countP_new cs p i hknot
      · rw [srInsert_countP_preserved cs p k i hik]
        exact h1 i (by omega)
    have h2' := srInsert_members_bound cs p k h2
    have hmain := ih (k + 1) (srInsert cs (p, k)) h1' h2'
    have hfold : ((p :: t).enumFrom k).foldl (fun cs2 ip => srInsert cs2 (ip.2, ip.1)) cs
        = (t.enumFrom (k + 1)).foldl (fun cs2 ip => srInsert cs2 (ip.2, ip.1))
            (srInsert cs (p, k)) := by
      simp [List.enumFrom]
    refine ⟨?_, ?_, ?_⟩
    · intro i hi
      rw [hfold]
      exact hmain.1 i (by simp at hi ⊢; omega)
    · intro c hc i hi
      rw [hfold] at hc
      have := hmain.2.1 c hc i hi
      simp at this ⊢
      omega
    · rw [hfold]
      calc ((t.enumFrom (k + 1)).foldl (fun cs2 ip => srInsert cs2 (ip.2, ip.1))
            (srInsert cs (p, k))).length
          ≤ (srInsert cs (p, k)).length + t.length := hmain.2.2
        _ ≤ cs.length + 1 + t.length := by
            have := srInsert_length cs p k
            omega
        _ = cs.length + (p :: t).length := by
            simp
            omega

/-- C8: amended clustering claim. Every input swing point ends up in
exactly one cluster (the greedy loop assigns each point to the first
cluster whose running-mean price is within 0.5% of it, or to a fresh
cluster), and neither the cluster list nor the final ranked level list
is ever more numerous than the input swing points.  Two points within
0.5% of *each other* can nevertheless land in different clusters, since
the tolerance is tested against the cluster's running-mean price — see
the counterexample. -/
theorem calculateSupportResistance_spec (highs lows : List (ℚ × ℚ)) (cp : Option ℚ) :
    (∀ i, i < (srPoints highs lows).length →
      (srClusters (srPoints highs lows)).countP (fun c => decide (i ∈ c.members)) = 1) ∧
    (srClusters (srPoints highs lows)).length ≤ (srPoints highs lows).length ∧
    (calculateSupportResistance highs lows cp).length ≤ (srPoints highs lows).length := by
  have hinv := srFold_inv (srPoints highs lows) 0 [] (by simp) (by simp)
  have henum : (srPoints highs lows).enum = (srPoints highs lows).enumFrom 0 := rfl
  refine ⟨?_, ?_, ?_⟩
  · intro i hi
    unfold srClusters
    rw [henum]
    exact hinv.1 i (by simpa using hi)
  · unfold srClusters
    rw [henum]
    simpa using hinv.2.2
  · unfold calculateSupportResistance
    refine le_trans (List.length_take_le' _ _) ?_
    rw [List.length_mergeSort, List.length_map]
    unfold srClusters
    rw [henum]
    simpa using hinv.2.2

/-- C8: the claim as stated is false on the code: among the three
resistance swing points at prices 100, 99.51 and 100.26, the first and
third are within 0.5% of each other (0.26% both ways), yet they end in
different clusters — point 99.51 first merges with 100 and drags the
cluster's running mean down to 99.755, which is more than 0.5% away from
100.26, so 100.26 opens a second cluster. -/
theorem srCluster_claim_counterexample :
    (|(100 : ℚ) - 5013/50| / 100 < 5/1000 ∧
      |(100 : ℚ) - 5013/50| / (5013/50) < 5/1000) ∧
    ¬ ∃ c ∈ srClusters [⟨100, SRType.resistance, 1⟩, ⟨9951/100, SRType.resistance, 1⟩,
        ⟨5013/50, SRType.resistance, 1⟩], 0 ∈ c.members ∧ 2 ∈ c.members := by
  constructor
  · constructor
    · rw [abs_of_nonpos (by norm_num)]
      norm_num
    · rw [abs_of_nonpos (by norm_num)]
      norm_num
  · have s1 : srInsert [] (⟨100, SRType.resistance, 1⟩, 0)
        = [⟨100, SRType.resistance, 1, 1, [0]⟩] := rfl
    have s2 : srInsert [⟨100, SRType.resistance, 1, 1, [0]⟩]
          (⟨9951/100, SRType.resistance, 1⟩, 1)
        = [⟨19951/200, SRType.resistance, 2, 2, [0, 1]⟩] := by
      have hcond : |(100 : ℚ) - 9951/100| / 100 < 5/1000 := by
        rw [abs_of_nonneg (by norm_num)]
        norm_num
      unfold srInsert
      rw [if_pos hcond]
      simp [srMerge]
      norm_num
    have s3 : srInsert [⟨19951/200, SRType.resistance, 2, 2, [0, 1]⟩]
          (⟨5013/50, SRType.resistance, 1⟩, 2)
        = [⟨19951/200, SRType.resistance, 2, 2, [0, 1]⟩,
           ⟨5013/50, SRType.resistance, 1, 1, [2]⟩] := by
      have hcond : ¬ (|(19951/200 : ℚ) - 5013/50| / (19951/200) < 5/1000) := by
        rw [abs_of_nonpos (by norm_num)]
        norm_num
      unfold srInsert
      rw [if_neg hcond]
      rfl
    have heval : srClusters [⟨100, SRType.resistance, 1⟩, ⟨9951/100, SRType.resistance, 1⟩,
          ⟨5013/50, SRType.resistance, 1⟩]
        = [⟨19951/200, SRType.resistance, 2, 2, [0, 1]⟩,
           ⟨5013/50, SRType.resistance, 1, 1, [2]⟩] := by
      unfold srClusters
      simp only [List.enum, List.enumFrom, List.foldl]
      rw [s1, s2, s3]
    rw [heval]
    rintro ⟨c, hc, h0, h2⟩
    rcases List.mem_cons.1 hc with rfl | hc
    · simp at h2
    · rcases List.mem_cons.1 hc with rfl | hc
      · simp at h0
      · simp at hc

/-- C8 witness: the amended theorem applied to a single swing high —
its unique point lies in exactly one cluster and at most one level is
produced. -/
theorem calculateSupportResistance_spec_witness :
    (srClusters (srPoints [(100, 1)] [])).countP (fun c => decide (0 ∈ c.members)) = 1 ∧
    (calculateSupportResistance [(100, 1)] [] none).length ≤ 1 := by
  have h := calculateSupportResistance_spec [(100, 1)] [] none
  refine ⟨h.1 0 (by simp [srPoints]), ?_⟩
  have h2 := h.2.2
  simpa [srPoints] using h2

end SpyDash
